import Mathlib

/-!
Verification development for the mDNS engine of `src/src/mdns/mdns.cpp`
(rtpmidid).  The engine is embedded shallowly: the engine state (the
announcement registry, discovery registry, query-callback registry,
response cache, local ip, pending reannouncement timers) is a Lean
structure, and every operation of the engine is a Lean function from
state to state paired with a trace of observable events (packets sent,
callbacks invoked, records handed to `detected_service`).

Code present in `src/src/mdns/mdns.cpp` is translated directly.  The
repository's headers (`mdns.hpp`, `netutils.hpp`, `stringpp.hpp`,
`poller.hpp`) are not in the source tree; the definitions taken from
them are modelled from the specification and marked as such in their
doc comments.

Conventions of the embedding:
* C++ `std::map<K, std::vector<V>>` registries become association lists
  `List (K × List V)`; `operator[]` (which inserts an empty bucket when
  the key is absent) is `abucketmod`, `find` is `alookup`.  Iteration
  order of the association list is insertion order rather than
  `std::map`'s key order; no claim below depends on iteration order.
* Callbacks (`std::function`) are opaque: they are represented by
  numeric identifiers, and invoking one is an event in the trace.  The
  side effects a user callback itself performs are outside the model.
* Cache buckets hold `Option service`: `std::vector<std::unique_ptr<service>>`
  entries can become null (moved-from) through the faulty erase in
  `update_cache`; dereferencing such an entry is undefined behaviour in
  the C++ and is recorded as a `ev.ub` event in the model.
* Bytes are `Nat`s kept below 256 by construction of the writers.
-/

/-- Modelled from the spec (§3, mdns.hpp is missing): the payload of the
four record variants.  `a` carries the four IPv4 address bytes (the C++
stores them in a `uint8_t[4]` punned with a `uint32_t ip4`). -/
inductive payload where
  | a (i0 i1 i2 i3 : Nat)
  | ptr (servicename : String)
  | srv (hostname : String) (port : Nat)
  | txt (txt : String)
deriving DecidableEq

/-- Modelled from the spec (§3, mdns.hpp is missing): a service record,
common header `label`/`ttl` plus the variant payload. -/
structure service where
  label : String
  ttl : Nat
  payload : payload
deriving DecidableEq

/-- Modelled from the spec (§3, mdns.hpp is missing): the numeric
`query_type_e` value of a record: A=1, PTR=12, TXT=16, SRV=33.  In the
C++ the `type` field always agrees with the concrete subclass, so the
model derives it from the payload. -/
def service.type (s : service) : Nat :=
  match s.payload with
  | .a _ _ _ _ => 1
  | .ptr _ => 12
  | .srv _ _ => 33
  | .txt _ => 16

/-- Modelled from the spec (§3, mdns.hpp is missing): equality of the
variant-specific payload (A: ip bytes; PTR: servicename; SRV:
hostname+port; TXT: txt). -/
def payloadEq : payload → payload → Bool
  | .a a0 a1 a2 a3, .a b0 b1 b2 b3 => a0 == b0 && a1 == b1 && a2 == b2 && a3 == b3
  | .ptr s, .ptr t => s == t
  | .srv h p, .srv h' p' => h == h' && p == p'
  | .txt s, .txt t => s == t
  | _, _ => false

/-- Modelled from the spec (§3, mdns.hpp is missing): `service::equal`,
true iff `type`, `label` and the variant payload agree; `ttl` is
ignored. -/
def sequal (x y : service) : Bool :=
  x.type == y.type && x.label == y.label && payloadEq x.payload y.payload

/-- Modelled from the spec (stringpp.hpp is missing): `startswith`, the
standard prefix test. -/
def startswith (str start : String) : Bool :=
  start.data.isPrefixOf str.data

/-- Modelled from the spec (stringpp.hpp is missing): `endswith`, the
standard suffix test (every string is a suffix of itself). -/
def endswith (str e : String) : Bool :=
  e.data.isSuffixOf str.data

/-- `discovery_match` (mdns.cpp:433): a pattern starting with `*.`
matches any label that ends with the part after `*.`; any other pattern
matches only the identical label. -/
def discovery_match (expr label : String) : Bool :=
  if startswith expr "*." then
    endswith label (expr.drop 2)
  else
    expr == label

/-- Registry keys: `(query type, label)` pairs, as in
`std::make_pair(type, label)`. -/
abbrev Key := Nat × String

/-- One stored announcement: the owned record together with its
reannouncement timer handle (`service::cache_timeout_id`; `none` = no
timer scheduled). -/
structure AnnEntry where
  svc : service
  timer : Option Nat
deriving DecidableEq

/-- An interface route `(ip, mask)` from the module-level `routes`
table (mdns.cpp:540). -/
structure ip_route4 where
  ip : Nat
  mask : Nat
deriving DecidableEq

/-- `ip_route4_t::match` (mdns.cpp:544): `(other & mask) == (ip & mask)`. -/
def rtMatch (rt : ip_route4) (other : Nat) : Bool :=
  Nat.land other rt.mask == Nat.land rt.ip rt.mask

/-- The engine state.  `routes` models the module-level static `routes`
table (filled once at startup); `srvJunk` models the indeterminate
string read by the invalid `service_txt` downcast in `send_response`'s
SRV fall-through; `pending` is the set of timer ids currently scheduled
in the poller and `nextTimer` a fresh-id counter. -/
structure State where
  ip4 : Nat
  routes : List ip_route4
  srvJunk : String
  announcements : List (Key × List AnnEntry)
  discovery_map : List (Key × List Nat)
  query_map : List (Key × List Nat)
  cache : List (Key × List (Option service))
  pending : List Nat
  nextTimer : Nat
deriving DecidableEq

/-- Observable events produced by engine operations. -/
inductive ev where
  | sent (bytes : List Nat)
  | detected (r : service)
  | discCb (id : Nat) (r : service)
  | queryCb (id : Nat) (r : service)
  | ub
deriving DecidableEq

/-- `std::map::find`: the bucket of the first matching key, if any. -/
def alookup (k : Key) : List (Key × α) → Option α
  | [] => none
  | (k', v) :: rest => if k' == k then some v else alookup k rest

/-- `std::map::operator[]` followed by a bucket update: applies `f` to
the existing bucket, or to the freshly inserted empty bucket when the
key is absent. -/
def abucketmod (k : Key) (f : List α → List α) : List (Key × List α) → List (Key × List α)
  | [] => [(k, f [])]
  | (k', b) :: rest =>
    if k' == k then (k', f b) :: rest else (k', b) :: abucketmod k f rest

/-- `std::map::erase(key)`. -/
def aerase (k : Key) : List (Key × α) → List (Key × α)
  | [] => []
  | (k', v) :: rest => if k' == k then rest else (k', v) :: aerase k rest

/-- The empty engine state right after the constructor (mdns.cpp:44):
`ip4` resolved, route table filled, all registries empty, no timers. -/
def initState (ip : Nat) (routes : List ip_route4) (junk : String) : State :=
  { ip4 := ip, routes := routes, srvJunk := junk, announcements := [],
    discovery_map := [], query_map := [], cache := [], pending := [], nextTimer := 0 }

/-! ## Wire writers (netutils.hpp is missing; modelled from the spec §4.1) -/

/-- Modelled from the spec: `write_uint16`, big-endian. -/
def u16be (v : Nat) : List Nat := [v / 256 % 256, v % 256]

/-- Modelled from the spec: `write_uint32`, big-endian. -/
def u32be (v : Nat) : List Nat :=
  [v / 16777216 % 256, v / 65536 % 256, v / 256 % 256, v % 256]

/-- The four bytes of an in-memory `uint32_t` on a little-endian host;
`write_uint32(htonl(x))` emits exactly these bytes of `x`. -/
def leBytes4 (v : Nat) : List Nat :=
  [v % 256, v / 256 % 256, v / 65536 % 256, v / 16777216 % 256]

/-- Modelled from the spec: `write_label` — each dot-separated segment
as a length byte followed by its bytes, terminated by a zero byte
(labels are ASCII, so `Char.toNat` is the byte and `seg.length` the
byte count). -/
def encodeLabel (s : String) : List Nat :=
  ((s.splitOn ".").map (fun seg => seg.length :: seg.data.map Char.toNat)).flatten ++ [0]

/-- The rdata body written by `mdns::send_response` (mdns.cpp:262-294).
The `A` case substitutes the engine's current local ip (via
`htonl`+`write_uint32`, i.e. `leBytes4`) when the record's address is
the all-zero sentinel.  The `SRV` case has no `break` in the source: it
falls through into the `TXT` case, which reinterprets the SRV object as
`service_txt` and writes whatever `txt` string that reads —
indeterminate bytes modelled by the `srvJunk` field of the state. -/
def rdataBody (st : State) (svc : service) : List Nat :=
  match svc.payload with
  | .a i0 i1 i2 i3 =>
    if i0 == 0 && i1 == 0 && i2 == 0 && i3 == 0 then leBytes4 st.ip4
    else [i0, i1, i2, i3]
  | .ptr sn => encodeLabel sn
  | .srv host port =>
    u16be 0 ++ u16be 0 ++ u16be port ++ encodeLabel host ++ encodeLabel st.srvJunk
  | .txt t => encodeLabel t

/-- The bytes sent by `mdns::send_response` (mdns.cpp:236-305): 12-byte
DNS header with flag byte `0x84` at offset 2 and `ancount = 1`, the
record's label, type, class IN, ttl, then the rdata length back-patched
over the 2 bytes reserved before the body.  (The 1500-byte buffer bound
is not modelled; every record used below is far smaller.) -/
def sendResponseBytes (st : State) (svc : service) : List Nat :=
  let body := rdataBody st svc
  [0, 0, 0x84, 0, 0, 0, 0, 1, 0, 0, 0, 0] ++ encodeLabel svc.label ++
    u16be svc.type ++ u16be 1 ++ u32be svc.ttl ++ u16be body.length ++ body

/-! ## The engine operations (mdns.cpp) -/

/-- Errors raised by the guarded entry points; the spec calls the
over-long-name rejection `NameTooLong` (§7). -/
inductive mdnsError where
  | nameTooLong
deriving DecidableEq

/-- The loopback-suppression test of `mdns::detected_service`
(mdns.cpp:445-456): some announcement bucket of the same type holds a
record equal to `r`. -/
def suppressed (st : State) (r : service) : Bool :=
  st.announcements.any fun kv => kv.1.1 == r.type && kv.2.any fun e => sequal e.svc r

/-- `fun o => o->equal(service)` on a cache slot; dereferencing a null
(moved-from) slot would be undefined behaviour in the C++, recorded
separately as a `ev.ub` event. -/
def slotEq (r : service) (o : Option service) : Bool :=
  o.elim false fun d => sequal d r

/-- A `ev.ub` marker when a bucket holds a null slot that the C++ code
would dereference. -/
def bucketUb (b : List (Option service)) : List ev :=
  if b.any (·.isNone) then [ev.ub] else []

/-- The exact effect of `services.erase(std::remove_if(begin, end, p))`
(mdns.cpp:493-495) on a non-empty vector of owned pointers — note the
single-iterator `erase`, which removes only the element at the iterator
returned by `remove_if` instead of the whole tail range:
* no element matches: `remove_if` returns `end()` and `erase(end())` is
  undefined behaviour; modelled as what the common implementation does,
  removing the last element;
* otherwise, with the first match at `k0`, `remove_if` shifts the
  non-matching elements after `k0` down (leaving moved-from nulls where
  it moved them out and untouched originals elsewhere) and `erase`
  removes the single slot it returns. -/
def cppTtl0Erase (p : Option service → Bool) (l : List (Option service)) :
    List (Option service) :=
  match l.findIdx? p with
  | none => l.dropLast
  | some k0 =>
    let kept := (l.drop (k0 + 1)).filter fun x => !p x
    l.take k0 ++ kept ++
      (((l.drop (k0 + kept.length)).map fun a => if p a then a else none).drop 1)

/-- `mdns::update_cache` (mdns.cpp:483-515).  ttl = 0: fetch the bucket
with `operator[]` (inserting an empty one if absent), return if it is
empty, else run the faulty erase-remove above.  ttl > 0: refresh the
ttl of every equal entry, and append a clone (same variant and payload,
per spec §4.2 — `clone()` lives in the missing mdns.hpp) if none was
equal. -/
def update_cache (st : State) (r : service) : State × List ev :=
  let key : Key := (r.type, r.label)
  if r.ttl == 0 then
    match alookup key st.cache with
    | none => ({ st with cache := abucketmod key id st.cache }, [])
    | some [] => (st, [])
    | some (o :: b) =>
      ({ st with cache := abucketmod key (fun _ => cppTtl0Erase (slotEq r) (o :: b)) st.cache },
        bucketUb (o :: b))
  else
    let b := (alookup key st.cache).getD []
    let b1 := b.map fun o =>
      match o with
      | some d => if sequal d r then some { d with ttl := r.ttl } else some d
      | none => none
    let b2 := if b.any (slotEq r) then b1 else b1 ++ [some r]
    ({ st with cache := abucketmod key (fun _ => b2) st.cache }, bucketUb b)

/-- `mdns::detected_service` (mdns.cpp:441-481).  The `ev.detected`
event marks the call itself.  If no announced record equals `r`:
collect the discovery callbacks whose `(type, pattern)` matches, invoke
them, invoke and drain the query callbacks at `(type, label)` (the
erase happens even when no callback was registered), then update the
cache. -/
def detected_service (st : State) (r : service) : State × List ev :=
  if suppressed st r then (st, [ev.detected r])
  else
    let tocall := ((st.discovery_map.filter fun kv =>
      kv.1.1 == r.type && discovery_match kv.1.2 r.label).map Prod.snd).flatten
    let qcbs := (alookup (r.type, r.label) st.query_map).getD []
    let st1 := { st with query_map := aerase (r.type, r.label) st.query_map }
    ((update_cache st1 r).1,
      ev.detected r :: (tocall.map fun i => ev.discCb i r) ++
        (qcbs.map fun i => ev.queryCb i r) ++ (update_cache st1 r).2)

/-- Delivery of a cached bucket by the two-argument `mdns::query`
(mdns.cpp:327-332): each slot is dereferenced and handed to
`detected_service` (a null slot would be a null dereference — `ev.ub`). -/
def deliverCached (st : State) (b : List (Option service)) : State × List ev :=
  b.foldl
    (fun acc o =>
      match o with
      | some s => ((detected_service acc.1 s).1, acc.2 ++ (detected_service acc.1 s).2)
      | none => (acc.1, acc.2 ++ [ev.ub]))
    (st, [])

/-- The question packet built by the two-argument `mdns::query`
(mdns.cpp:334-347): 120-byte zeroed buffer (transaction id 0),
`packet[5] = 1` (qdcount 1), label at offset 12, then QTYPE and QCLASS
IN = 1; `broadcast` sends the bytes written so far. -/
def queryPacket (name : String) (qt : Nat) : List Nat :=
  [0, 0, 0, 0, 0, 1, 0, 0, 0, 0, 0, 0] ++ encodeLabel name ++ u16be qt ++ u16be 1

/-- The two-argument `mdns::query` (mdns.cpp:324-356): if the cache has
a bucket for `(type, name)` — even an empty one — deliver each entry
through `detected_service` and return without sending; otherwise build
the question packet and send it once. -/
def query2 (st : State) (name : String) (qt : Nat) : State × List ev :=
  match alookup (qt, name) st.cache with
  | some b => deliverCached st b
  | none => (st, [ev.sent (queryPacket name qt)])

/-- The three-argument `mdns::query` (mdns.cpp:174-183): reject names
longer than 100 bytes, append the callback to the query-callback
registry under `(type, name)`, then run the two-argument query. -/
def query3 (st : State) (name : String) (qt : Nat) (cb : Nat) :
    Except mdnsError (State × List ev) :=
  if name.utf8ByteSize > 100 then .error .nameTooLong
  else
    .ok (query2 { st with query_map := abucketmod (qt, name) (· ++ [cb]) st.query_map } name qt)

/-- `mdns::on_discovery` (mdns.cpp:160-167): reject patterns longer
than 100 bytes, append the callback to the discovery registry. -/
def on_discovery (st : State) (pattern : String) (qt : Nat) (cb : Nat) :
    Except mdnsError (State × List ev) :=
  if pattern.utf8ByteSize > 100 then .error .nameTooLong
  else
    .ok ({ st with discovery_map := abucketmod (qt, pattern) (· ++ [cb]) st.discovery_map }, [])

/-- `mdns::remove_discovery` (mdns.cpp:169-172). -/
def remove_discovery (st : State) (pattern : String) (qt : Nat) : State :=
  { st with discovery_map := aerase (qt, pattern) st.discovery_map }

/-- `mdns::announce` (mdns.cpp:185-208): reject labels longer than 100
bytes; if `broadcast`, send a response now; if `broadcast` and ttl > 0,
schedule a reannouncement timer (`reannounce_later`, a fresh poller
timer id stored in the record's `cache_timeout_id`); finally store the
record in the announcement registry bucket `(type, label)`. -/
def announce (st : State) (r : service) (broadcast : Bool) :
    Except mdnsError (State × List ev) :=
  if r.label.utf8ByteSize > 100 then .error .nameTooLong
  else
    let key : Key := (r.type, r.label)
    let tr := if broadcast then [ev.sent (sendResponseBytes st r)] else []
    if broadcast && decide (0 < r.ttl) then
      .ok ({ st with
              announcements := abucketmod key (· ++ [⟨r, some st.nextTimer⟩]) st.announcements,
              pending := st.pending ++ [st.nextTimer],
              nextTimer := st.nextTimer + 1 }, tr)
    else
      .ok ({ st with
              announcements := abucketmod key (· ++ [⟨r, none⟩]) st.announcements }, tr)

/-- `mdns::unannounce` (mdns.cpp:220-234): set the record's ttl to 0,
send one goodbye, then erase every equal record from the bucket
`(type, label)` (a correct two-iterator erase-remove here).  The
`reannounce_timers.erase(srv)` in the source is a no-op: nothing in the
translation unit ever inserts into that map.  Destroying a stored
record destroys its timer handle, which cancels the pending timer
(poller contract, §4.4 — poller.hpp is missing). -/
def unannounce (st : State) (r : service) : State × List ev :=
  let r0 : service := { r with ttl := 0 }
  let key : Key := (r0.type, r0.label)
  let bucket := (alookup key st.announcements).getD []
  let removedTimers := (bucket.filter fun e => sequal e.svc r0).filterMap (·.timer)
  ({ st with
      announcements := abucketmod key (fun b => b.filter fun e => !sequal e.svc r0) st.announcements,
      pending := st.pending.filter fun t => !removedTimers.contains t },
    [ev.sent (sendResponseBytes st r0)])

/-- One step of the reannouncement loop set up by
`mdns::reannounce_later` (mdns.cpp:210-218): when the pending timer `t`
fires, the entry holding it re-sends its record and reschedules itself
under a fresh timer id (the old handle is overwritten).  Helper: fire
inside one bucket. -/
def fireBucket (n t : Nat) : List AnnEntry → List AnnEntry × Option service
  | [] => ([], none)
  | e :: es =>
    if e.timer == some t then ({ e with timer := some n } :: es, some e.svc)
    else
      let (es', r) := fireBucket n t es
      (e :: es', r)

/-- Helper for `fireTimer`: locate and update the entry holding timer
`t` across the registry. -/
def fireAnn (n t : Nat) :
    List (Key × List AnnEntry) → List (Key × List AnnEntry) × Option service
  | [] => ([], none)
  | (k, es) :: rest =>
    match fireBucket n t es with
    | (es', some s) => ((k, es') :: rest, some s)
    | (_, none) =>
      let (rest', r) := fireAnn n t rest
      ((k, es) :: rest', r)

/-- Firing of a scheduled reannouncement timer `t` (the closure of
`mdns::reannounce_later`): send the record's response and reschedule.
A timer that is not pending, or no longer referenced by any stored
record, does nothing (its handle was destroyed, cancelling it). -/
def fireTimer (st : State) (t : Nat) : State × List ev :=
  if t ∈ st.pending then
    match fireAnn st.nextTimer t st.announcements with
    | (ann', some s) =>
      ({ st with announcements := ann',
                 pending := (st.pending.erase t) ++ [st.nextTimer],
                 nextTimer := st.nextTimer + 1 },
        [ev.sent (sendResponseBytes st s)])
    | (_, none) => (st, [])
  else (st, [])

/-- `mdns::answer_if_known` (mdns.cpp:313-322): if the announcement
registry has a bucket for `(type, label)` (`find`, not `operator[]`),
send one response per stored record and report true. -/
def answerIfKnown (st : State) (qt : Nat) (label : String) : List ev × Bool :=
  match alookup (qt, label) st.announcements with
  | some bucket => (bucket.map fun e => ev.sent (sendResponseBytes st e.svc), true)
  | none => ([], false)


/-! ## Inbound parsing (parse_buffer_t and read_label are in the missing
netutils.hpp and are modelled from the spec §4.1; read_question,
read_answer, parse_packet and mdns_ready are translated from mdns.cpp) -/

/-- Modelled from the spec: the bounds-checked buffer view — the packet
bytes with a current position and an end; a read that would cross the
end is a parse fault (`none`). -/
structure pbuf where
  data : List Nat
  pos : Nat
  endp : Nat
deriving DecidableEq

/-- Modelled from the spec: `read_uint8`. -/
def pbuf.readU8 (b : pbuf) : Option (Nat × pbuf) :=
  if b.pos + 1 ≤ b.endp then some (b.data.getD b.pos 0, { b with pos := b.pos + 1 })
  else none

/-- Modelled from the spec: `read_uint16`, big-endian. -/
def pbuf.readU16 (b : pbuf) : Option (Nat × pbuf) :=
  match b.readU8 with
  | none => none
  | some (hi, b1) =>
    match b1.readU8 with
    | none => none
    | some (lo, b2) => some (hi * 256 + lo, b2)

/-- Modelled from the spec: `read_uint32`, big-endian. -/
def pbuf.readU32 (b : pbuf) : Option (Nat × pbuf) :=
  match b.readU16 with
  | none => none
  | some (hi, b1) =>
    match b1.readU16 with
    | none => none
    | some (lo, b2) => some (hi * 65536 + lo, b2)

/-- Modelled from the spec: the worker of `read_label` — length-prefixed
segments, a byte with the top two bits set (≥ 0xC0) introducing a
14-bit compression pointer relative to packet start, a zero byte
terminating the name.  The reader resumes immediately after the first
pointer (or after the terminator when no pointer occurred); the fuel
bounds pointer hops, guarding against pointer cycles. -/
def readLabelAux (data : List Nat) (endp : Nat) :
    Nat → Nat → List String → Option Nat → Option (List String × Nat)
  | 0, _, _, _ => none
  | fuel + 1, pos, acc, resume =>
    if pos + 1 ≤ endp then
      let b := data.getD pos 0
      if b == 0 then some (acc.reverse, resume.getD (pos + 1))
      else if b ≥ 192 then
        if pos + 2 ≤ endp then
          readLabelAux data endp fuel (b % 64 * 256 + data.getD (pos + 1) 0) acc
            (some (resume.getD (pos + 2)))
        else none
      else
        if pos + 1 + b ≤ endp then
          readLabelAux data endp fuel (pos + 1 + b)
            (String.mk (((data.drop (pos + 1)).take b).map Char.ofNat) :: acc) resume
        else none
    else none

/-- Modelled from the spec: `read_label`, producing the dot-joined name
and the advanced reader. -/
def readLabel (b : pbuf) : Option (String × pbuf) :=
  match readLabelAux b.data b.endp (b.endp + 8) b.pos [] none with
  | some (segs, newpos) => some (String.intercalate "." segs, { b with pos := newpos })
  | none => none

/-- `read_question` (mdns.cpp:95-105): label, type, class, then
`answer_if_known`; yields the responses sent and whether the question
was known. -/
def readQuestion (st : State) (b : pbuf) : Option (List ev × pbuf × Bool) :=
  match readLabel b with
  | none => none
  | some (label, b1) =>
    match b1.readU16 with
    | none => none
    | some (qt, b2) =>
      match b2.readU16 with
      | none => none
      | some (_, b3) =>
        some ((answerIfKnown st qt label).1, b3, (answerIfKnown st qt label).2)

/-- `read_answer` (mdns.cpp:107-158): label, type, class, ttl, rdlength;
then the variant body — PTR reads a label, SRV skips priority and
weight (with a position check), reads port and target, A reads four
bytes, unknown types read nothing; each decoded record goes to
`detected_service`; finally the position is forced to
`body start + rdlength` and checked. -/
def readAnswer (st : State) (b : pbuf) : Option (State × List ev × pbuf) :=
  match readLabel b with
  | none => none
  | some (label, b1) =>
    match b1.readU16 with
    | none => none
    | some (type_, b2) =>
      match b2.readU16 with
      | none => none
      | some (_, b3) =>
        match b3.readU32 with
        | none => none
        | some (ttl, b4) =>
          match b4.readU16 with
          | none => none
          | some (dlen, b5) =>
            if type_ == 12 then
              match readLabel b5 with
              | none => none
              | some (ans, b6) =>
                if b5.pos + dlen ≤ b6.endp then
                  some ((detected_service st ⟨label, ttl, .ptr ans⟩).1,
                    (detected_service st ⟨label, ttl, .ptr ans⟩).2,
                    { b6 with pos := b5.pos + dlen })
                else none
            else if type_ == 33 then
              if b5.pos + 4 ≤ b5.endp then
                match pbuf.readU16 { b5 with pos := b5.pos + 4 } with
                | none => none
                | some (port, b7) =>
                  match readLabel b7 with
                  | none => none
                  | some (target, b8) =>
                    if b5.pos + dlen ≤ b8.endp then
                      some ((detected_service st ⟨label, ttl, .srv target port⟩).1,
                        (detected_service st ⟨label, ttl, .srv target port⟩).2,
                        { b8 with pos := b5.pos + dlen })
                    else none
              else none
            else if type_ == 1 then
              match b5.readU8 with
              | none => none
              | some (i0, c1) =>
                match c1.readU8 with
                | none => none
                | some (i1, c2) =>
                  match c2.readU8 with
                  | none => none
                  | some (i2, c3) =>
                    match c3.readU8 with
                    | none => none
                    | some (i3, c4) =>
                      if b5.pos + dlen ≤ c4.endp then
                        some ((detected_service st ⟨label, ttl, .a i0 i1 i2 i3⟩).1,
                          (detected_service st ⟨label, ttl, .a i0 i1 i2 i3⟩).2,
                          { c4 with pos := b5.pos + dlen })
                      else none
            else
              if b5.pos + dlen ≤ b5.endp then some (st, [], { b5 with pos := b5.pos + dlen })
              else none

/-- How the question loop of `parse_packet` ended: all questions
processed, aborted on an unknown question, or stopped by a parse
fault. -/
inductive qexit where
  | ok
  | abort
  | fault
deriving DecidableEq

/-- The question loop of `parse_packet` (mdns.cpp:373-379): questions
are read in order; a question whose `(type, label)` is unknown makes
the loop return, abandoning the rest of the packet.  The engine state
is unchanged by questions (`answer_if_known` only sends). -/
def runQuestions (st : State) : Nat → pbuf → List ev × pbuf × qexit
  | 0, b => ([], b, .ok)
  | n + 1, b =>
    match readQuestion st b with
    | none => ([], b, .fault)
    | some (tr, b1, known) =>
      if known then
        (tr ++ (runQuestions st n b1).1, (runQuestions st n b1).2.1,
          (runQuestions st n b1).2.2)
      else (tr, b1, .abort)

/-- The answer loop of `parse_packet` (mdns.cpp:380-386);
`read_answer` only returns false via a parse fault. -/
def runAnswers : Nat → State → pbuf → State × List ev × pbuf × qexit
  | 0, st, b => (st, [], b, .ok)
  | n + 1, st, b =>
    match readAnswer st b with
    | none => (st, [], b, .fault)
    | some (st1, tr, b1) =>
      ((runAnswers n st1 b1).1, tr ++ (runAnswers n st1 b1).2.1,
        (runAnswers n st1 b1).2.2.1, (runAnswers n st1 b1).2.2.2)

/-- The 12-byte header read of `parse_packet` (mdns.cpp:358-366):
transaction id, flags, qdcount, ancount, nscount, arcount; only qdcount
and ancount are used. -/
def readHeader (b : pbuf) : Option (Nat × Nat × pbuf) :=
  match b.readU16 with
  | none => none
  | some (_, b1) =>
    match b1.readU16 with
    | none => none
    | some (_, b2) =>
      match b2.readU16 with
      | none => none
      | some (nq, b3) =>
        match b3.readU16 with
        | none => none
        | some (na, b4) =>
          match b4.readU16 with
          | none => none
          | some (_, b5) =>
            match b5.readU16 with
            | none => none
            | some (_, b6) => some (nq, na, b6)

/-- `parse_packet` (mdns.cpp:358-387): header, then all questions, then
— only if every question was known — all answers. -/
def parsePacket (st : State) (b : pbuf) : State × List ev × pbuf × qexit :=
  match readHeader b with
  | none => (st, [], b, .fault)
  | some (nq, na, b6) =>
    match runQuestions st nq b6 with
    | (tr1, b7, .ok) =>
      ((runAnswers na st b7).1, tr1 ++ (runAnswers na st b7).2.1,
        (runAnswers na st b7).2.2.1, (runAnswers na st b7).2.2.2)
    | (tr1, b7, e) => (st, tr1, b7, e)

/-- `route_get_ip_for_route` (mdns.cpp:583-599): the ip of the first
route whose subnet matches the peer, else 0. -/
def routeGetIpForRoute (routes : List ip_route4) (other : Nat) : Nat :=
  match routes.find? (fun rt => rtMatch rt other) with
  | some rt => rt.ip
  | none => 0

/-- `mdns::mdns_ready` (mdns.cpp:389-431): the engine's `ip4` is
overwritten with the route resolver's answer for the sender before any
length check; a datagram shorter than 16 bytes is then dropped; the
`> 1500` guard is dead in the source (`recvfrom` reads at most 1500)
but kept; otherwise the packet is parsed. -/
def mdnsReady (st : State) (sender : Nat) (dgram : List Nat) : State × List ev :=
  let st1 := { st with ip4 := routeGetIpForRoute st.routes sender }
  if dgram.length < 16 then (st1, [])
  else if dgram.length > 1500 then (st1, [])
  else
    ((parsePacket st1 ⟨dgram, 0, dgram.length⟩).1,
      (parsePacket st1 ⟨dgram, 0, dgram.length⟩).2.1)

/-- The destructor `mdns::~mdns` (mdns.cpp:85-93): one goodbye
(ttl = 0) response per stored announcement. -/
def teardown (st : State) : List ev :=
  ((st.announcements.map Prod.snd).flatten).map fun e =>
    ev.sent (sendResponseBytes st { e.svc with ttl := 0 })

/-- The records handed to `detected_service` in a trace. -/
def detectedEvents (tr : List ev) : List service :=
  tr.filterMap fun e =>
    match e with
    | .detected r => some r
    | _ => none

/-- The packets sent in a trace. -/
def sentEvents (tr : List ev) : List (List Nat) :=
  tr.filterMap fun e =>
    match e with
    | .sent p => some p
    | _ => none

/-! ## Derived notions used by the claims -/

/-- All bucket elements of an association-list registry, in list
order. -/
def entsOf (l : List (Key × List α)) : List α := (l.map Prod.snd).flatten

/-- All records stored in the announcement registry. -/
def allEntries (st : State) : List AnnEntry := entsOf st.announcements

/-- The reannouncement-timer ids held by stored announcements. -/
def entryTimers (st : State) : List Nat := (allEntries st).filterMap (·.timer)

/-- The timer invariant (spec §3, amended): the timer handles held by
stored announcements are pairwise distinct and all pending; pending
timer ids are distinct and below the fresh-id counter; and a stored
record holding a timer has ttl > 0. -/
def TimerInv (st : State) : Prop :=
  (entryTimers st).Nodup ∧
  (∀ t ∈ entryTimers st, t ∈ st.pending) ∧
  st.pending.Nodup ∧
  (∀ t ∈ st.pending, t < st.nextTimer) ∧
  (∀ e ∈ allEntries st, e.timer.isSome → 0 < e.svc.ttl)

/-- The engine states reachable from startup by announce, unannounce,
reannouncement-timer firings and inbound datagrams. -/
inductive Reach : State → Prop
  | init (ip : Nat) (routes : List ip_route4) (junk : String) :
      Reach (initState ip routes junk)
  | ann (st : State) (r : service) (b : Bool) (st' : State) (tr : List ev) :
      Reach st → announce st r b = .ok (st', tr) → Reach st'
  | unann (st : State) (r : service) : Reach st → Reach (unannounce st r).1
  | fire (st : State) (t : Nat) : Reach st → Reach (fireTimer st t).1
  | pkt (st : State) (sender : Nat) (dgram : List Nat) :
      Reach st → Reach (mdnsReady st sender dgram).1

/-- Announcement bucket membership used by the loopback-suppression
claims: some bucket whose key has the record's type holds an equal
record. -/
def annHasEqual (st : State) (R : service) : Prop :=
  ∃ kv ∈ st.announcements, kv.1.1 = R.type ∧ ∃ e ∈ kv.2, sequal e.svc R = true

/-- Fields never touched by inbound dispatch: everything except the
query-callback registry and the cache. -/
def FrameEq (st st' : State) : Prop :=
  st'.ip4 = st.ip4 ∧ st'.routes = st.routes ∧ st'.srvJunk = st.srvJunk ∧
  st'.announcements = st.announcements ∧ st'.discovery_map = st.discovery_map ∧
  st'.pending = st.pending ∧ st'.nextTimer = st.nextTimer

/-! ## Concrete inputs used by counterexamples and witnesses -/

/-- A fresh engine state with no routes and empty registries. -/
def st0 : State := initState 0 [] ""

/-- A packet with one question (`x.local`, type A) and one well-formed
A answer (`foo.local`, ttl 30, ip 10.0.0.5). -/
def pkt1 : List Nat :=
  [0, 0, 0, 0, 0, 1, 0, 1, 0, 0, 0, 0] ++
  [1, 120, 5, 108, 111, 99, 97, 108, 0, 0, 1, 0, 1] ++
  [3, 102, 111, 111, 5, 108, 111, 99, 97, 108, 0, 0, 1, 0, 1, 0, 0, 0, 30, 0, 4, 10, 0, 0, 5]

/-- `st0` with `(A, "x.local")` announced, so that the question in
`pkt1` is known. -/
def stK : State :=
  { st0 with announcements := [((1, "x.local"), [⟨⟨"x.local", 60, .a 10 0 0 7⟩, none⟩])] }

/-- The A record carried by the answer section of `pkt1`. -/
def fooRec : service := ⟨"foo.local", 30, .a 10 0 0 5⟩

/-- The SRV record of spec §8 scenario 4. -/
def srvRec : service := ⟨"studio._apple-midi._udp.local", 60, .srv "host.local" 5004⟩

/-- The rdata body the claim C2 (and spec §4.5) prescribes for
`srvRec`: priority 0, weight 0, port 5004 = 0x138C, hostname label,
nothing else. -/
def srvClaimedBody : List Nat :=
  [0, 0, 0, 0, 0x13, 0x8C] ++ encodeLabel "host.local"

/-- A goodbye (ttl 0) PTR record. -/
def rP : service := ⟨"_apple-midi._udp.local", 0, .ptr "studio._apple-midi._udp.local"⟩

/-- A cached record equal to `rP` (ttl differs; equality ignores ttl). -/
def pC : service := ⟨"_apple-midi._udp.local", 120, .ptr "studio._apple-midi._udp.local"⟩

/-- A cached record under the same key not equal to `rP`. -/
def xC : service := ⟨"_apple-midi._udp.local", 120, .ptr "other._apple-midi._udp.local"⟩

/-- A state whose cache bucket for `(PTR, _apple-midi._udp.local)`
holds one non-equal and two equal entries. -/
def st3 : State :=
  { st0 with cache := [((12, "_apple-midi._udp.local"), [some xC, some pC, some pC])] }

/-- A PTR record with ttl 60 announced without broadcast. -/
def R0 : service := ⟨"_apple-midi._udp.local", 60, .ptr "studio._apple-midi._udp.local"⟩

/-- The state after `announce R0 broadcast=false` from a fresh engine:
the record is stored with no reannouncement timer. -/
def st6 : State :=
  { st0 with announcements := [((12, "_apple-midi._udp.local"), [⟨R0, none⟩])] }

/-- A state whose cache has a present-but-empty bucket for
`(A, "x.local")` — e.g. left behind by a goodbye for a never-cached
key, which `update_cache` materialises via `operator[]`. -/
def st7 : State := { st0 with cache := [((1, "x.local"), [])] }

/-- A state where `(PTR, _apple-midi._udp.local)` is both announced and
cached with an equal record: every cached entry of that bucket is
suppressed as the engine's own. -/
def st9 : State :=
  { st0 with
      announcements := [((12, "_apple-midi._udp.local"), [⟨pC, none⟩])],
      cache := [((12, "_apple-midi._udp.local"), [some pC])] }

/-- A 101-byte name, over the 100-byte limit. -/
def n101 : String := String.mk (List.replicate 101 'a')

/-- A one-route table and a peer inside/outside it, for the C10
witness. -/
def rt10 : ip_route4 := ⟨0x0A00000A, 0x00FFFFFF⟩

/-- A state carrying the one-route table `rt10`. -/
def st10 : State := initState 5 [rt10] ""

/-! ## Basic lemmas about the embedding -/

theorem payloadEq_iff (p q : payload) : payloadEq p q = true ↔ p = q := by
  cases p <;> cases q <;> simp [payloadEq, and_assoc]

theorem sequal_iff (x y : service) :
    sequal x y = true ↔ x.label = y.label ∧ x.payload = y.payload := by
  constructor
  · intro h
    simp [sequal, Bool.and_eq_true, payloadEq_iff] at h
    exact ⟨h.1.2, h.2⟩
  · intro ⟨h1, h2⟩
    simp [sequal, Bool.and_eq_true, payloadEq_iff, h1, h2, service.type]

theorem sequal_type {x y : service} (h : sequal x y = true) : x.type = y.type := by
  rw [sequal_iff] at h
  simp [service.type, h.2]

theorem sequal_refl (x : service) : sequal x x = true := by
  rw [sequal_iff]; exact ⟨rfl, rfl⟩

theorem sequal_common {a b c : service} (h1 : sequal a c = true)
    (h2 : sequal b c = true) : sequal a b = true := by
  rw [sequal_iff] at *
  exact ⟨h1.1.trans h2.1.symm, h1.2.trans h2.2.symm⟩

theorem alookup_mem {k : Key} {l : List (Key × α)} {v : α}
    (h : alookup k l = some v) : (k, v) ∈ l := by
  induction l with
  | nil => simp [alookup] at h
  | cons kv rest ih =>
    obtain ⟨k', v'⟩ := kv
    by_cases hk : k' == k
    · simp [alookup, hk] at h
      simp [eq_of_beq hk, h]
    · simp [alookup, hk] at h
      exact List.mem_cons_of_mem _ (ih h)

theorem alookup_abm (k : Key) (f : List α → List α) (l : List (Key × List α)) :
    alookup k (abucketmod k f l) = some (f ((alookup k l).getD [])) := by
  induction l with
  | nil => simp [alookup, abucketmod]
  | cons kv rest ih =>
    obtain ⟨k', b⟩ := kv
    by_cases hk : k' == k
    · simp [alookup, abucketmod, hk]
    · simp [alookup, abucketmod, hk, ih]

theorem ents_abm (k : Key) (f : List α → List α) (l : List (Key × List α)) :
    ∃ pre post,
      entsOf l = pre ++ ((alookup k l).getD []) ++ post ∧
      entsOf (abucketmod k f l) = pre ++ f ((alookup k l).getD []) ++ post := by
  induction l with
  | nil => exact ⟨[], [], by simp [entsOf, alookup, abucketmod]⟩
  | cons kv rest ih =>
    obtain ⟨k', b⟩ := kv
    by_cases hk : k' == k
    · exact ⟨[], entsOf rest, by simp [entsOf, alookup, abucketmod, hk]⟩
    · obtain ⟨pre, post, h1, h2⟩ := ih
      refine ⟨b ++ pre, post, ?_, ?_⟩
      · simp [entsOf, alookup, abucketmod, hk] at h1 ⊢
        simp [h1]
      · simp [entsOf, alookup, abucketmod, hk] at h2 ⊢
        simp [h2]

theorem FrameEq.refl (st : State) : FrameEq st st := by
  simp [FrameEq]

theorem FrameEq.trans {a b c : State} (h1 : FrameEq a b) (h2 : FrameEq b c) :
    FrameEq a c := by
  obtain ⟨x1, x2, x3, x4, x5, x6, x7⟩ := h1
  obtain ⟨y1, y2, y3, y4, y5, y6, y7⟩ := h2
  exact ⟨y1.trans x1, y2.trans x2, y3.trans x3, y4.trans x4, y5.trans x5,
    y6.trans x6, y7.trans x7⟩

theorem update_cache_frame (st : State) (r : service) :
    FrameEq st (update_cache st r).1 := by
  unfold update_cache
  dsimp only
  split
  · split <;> simp [FrameEq]
  · simp [FrameEq]

theorem detected_frame (st : State) (r : service) :
    FrameEq st (detected_service st r).1 := by
  unfold detected_service
  split
  · exact FrameEq.refl _
  · dsimp only
    have h := update_cache_frame
      { st with query_map := aerase (r.type, r.label) st.query_map } r
    rcases hx : update_cache { st with query_map := aerase (r.type, r.label) st.query_map } r
      with ⟨st2, trc⟩
    rw [hx] at h
    simp only [hx]
    exact h

theorem readAnswer_frame {st st' : State} {b b' : pbuf} {tr : List ev}
    (h : readAnswer st b = some (st', tr, b')) : FrameEq st st' := by
  unfold readAnswer at h
  rcases hx1 : readLabel b with _ | ⟨label, b1⟩ <;> rw [hx1] at h <;> dsimp only at h
  · exact absurd h (by simp)
  rcases hx2 : b1.readU16 with _ | ⟨type_, b2⟩ <;> rw [hx2] at h <;> dsimp only at h
  · exact absurd h (by simp)
  rcases hx3 : b2.readU16 with _ | ⟨cls, b3⟩ <;> rw [hx3] at h <;> dsimp only at h
  · exact absurd h (by simp)
  rcases hx4 : b3.readU32 with _ | ⟨ttl, b4⟩ <;> rw [hx4] at h <;> dsimp only at h
  · exact absurd h (by simp)
  rcases hx5 : b4.readU16 with _ | ⟨dlen, b5⟩ <;> rw [hx5] at h <;> dsimp only at h
  · exact absurd h (by simp)
  by_cases h12 : type_ == 12
  · rw [if_pos h12] at h
    rcases hx6 : readLabel b5 with _ | ⟨ans, b6⟩ <;> rw [hx6] at h <;> dsimp only at h
    · exact absurd h (by simp)
    split at h
    · simp only [Option.some.injEq, Prod.mk.injEq] at h
      exact h.1 ▸ detected_frame st _
    · exact absurd h (by simp)
  rw [if_neg h12] at h
  by_cases h33 : type_ == 33
  · rw [if_pos h33] at h
    split at h
    · rcases hx7 : pbuf.readU16 { b5 with pos := b5.pos + 4 } with _ | ⟨port, b7⟩ <;>
        rw [hx7] at h <;> dsimp only at h
      · exact absurd h (by simp)
      rcases hx8 : readLabel b7 with _ | ⟨target, b8⟩ <;> rw [hx8] at h <;> dsimp only at h
      · exact absurd h (by simp)
      split at h
      · simp only [Option.some.injEq, Prod.mk.injEq] at h
        exact h.1 ▸ detected_frame st _
      · exact absurd h (by simp)
    · exact absurd h (by simp)
  rw [if_neg h33] at h
  by_cases h1t : type_ == 1
  · rw [if_pos h1t] at h
    rcases hx7 : b5.readU8 with _ | ⟨i0, c1⟩ <;> rw [hx7] at h <;> dsimp only at h
    · exact absurd h (by simp)
    rcases hx8 : c1.readU8 with _ | ⟨i1, c2⟩ <;> rw [hx8] at h <;> dsimp only at h
    · exact absurd h (by simp)
    rcases hx9 : c2.readU8 with _ | ⟨i2, c3⟩ <;> rw [hx9] at h <;> dsimp only at h
    · exact absurd h (by simp)
    rcases hx10 : c3.readU8 with _ | ⟨i3, c4⟩ <;> rw [hx10] at h <;> dsimp only at h
    · exact absurd h (by simp)
    split at h
    · simp only [Option.some.injEq, Prod.mk.injEq] at h
      exact h.1 ▸ detected_frame st _
    · exact absurd h (by simp)
  rw [if_neg h1t] at h
  split at h
  · simp only [Option.some.injEq, Prod.mk.injEq] at h
    exact h.1 ▸ FrameEq.refl st
  · exact absurd h (by simp)

theorem runAnswers_frame (n : Nat) : ∀ (st : State) (b : pbuf),
    FrameEq st (runAnswers n st b).1 := by
  induction n with
  | zero => intro st b; exact FrameEq.refl st
  | succ n ih =>
    intro st b
    unfold runAnswers
    rcases hx : readAnswer st b with _ | ⟨st1, tr, b1⟩ <;> dsimp only
    · exact FrameEq.refl st
    · have h1 := readAnswer_frame hx
      have h2 := ih st1 b1
      rcases hy : runAnswers n st1 b1 with ⟨st2, tr2, b2, e2⟩
      rw [hy] at h2
      dsimp only
      exact FrameEq.trans h1 h2

theorem parsePacket_frame (st : State) (b : pbuf) :
    FrameEq st (parsePacket st b).1 := by
  unfold parsePacket
  rcases hh : readHeader b with _ | ⟨nq, na, b6⟩ <;> dsimp only
  · exact FrameEq.refl st
  rcases hq : runQuestions st nq b6 with ⟨tr1, b7, e⟩
  cases e
  · have h := runAnswers_frame na st b7
    rcases hy : runAnswers na st b7 with ⟨st2, tr2, b8, e2⟩
    rw [hy] at h
    simp only [hy]
    exact h
  · exact FrameEq.refl st
  · exact FrameEq.refl st

theorem mdnsReady_ip4 (st : State) (sender : Nat) (dgram : List Nat) :
    (mdnsReady st sender dgram).1.ip4 = routeGetIpForRoute st.routes sender := by
  unfold mdnsReady
  dsimp only
  split
  · rfl
  split
  · rfl
  · have h := parsePacket_frame { st with ip4 := routeGetIpForRoute st.routes sender }
      ⟨dgram, 0, dgram.length⟩
    rcases hp : parsePacket { st with ip4 := routeGetIpForRoute st.routes sender }
      ⟨dgram, 0, dgram.length⟩ with ⟨st2, tr, b8, e⟩
    rw [hp] at h
    simp only [hp]
    exact h.1

theorem mdnsReady_frame3 (st : State) (sender : Nat) (dgram : List Nat) :
    (mdnsReady st sender dgram).1.announcements = st.announcements ∧
    (mdnsReady st sender dgram).1.pending = st.pending ∧
    (mdnsReady st sender dgram).1.nextTimer = st.nextTimer := by
  unfold mdnsReady
  dsimp only
  split
  · exact ⟨rfl, rfl, rfl⟩
  split
  · exact ⟨rfl, rfl, rfl⟩
  · have h := parsePacket_frame { st with ip4 := routeGetIpForRoute st.routes sender }
      ⟨dgram, 0, dgram.length⟩
    rcases hp : parsePacket { st with ip4 := routeGetIpForRoute st.routes sender }
      ⟨dgram, 0, dgram.length⟩ with ⟨st2, tr, b8, e⟩
    rw [hp] at h
    simp only [hp]
    exact ⟨h.2.2.2.1, h.2.2.2.2.2.1, h.2.2.2.2.2.2⟩

theorem perm_insert_middle (P B Q : List α) (a : α) :
    (P ++ (B ++ [a]) ++ Q).Perm (a :: (P ++ B ++ Q)) := by
  have h1 : P ++ (B ++ [a]) ++ Q = (P ++ B) ++ a :: Q := by simp
  have h2 : a :: ((P ++ B) ++ Q) = a :: (P ++ B ++ Q) := by simp
  rw [h1, ← h2]
  exact List.perm_middle

theorem timerInv_congr {st st' : State}
    (ha : st'.announcements = st.announcements) (hp : st'.pending = st.pending)
    (hn : st'.nextTimer = st.nextTimer) (h : TimerInv st) : TimerInv st' := by
  unfold TimerInv entryTimers allEntries at *
  rw [ha, hp, hn]
  exact h

theorem timerInv_announce_true (st : State) (r : service) (hr : 0 < r.ttl)
    (hi : TimerInv st) : TimerInv { st with
      announcements :=
        abucketmod (r.type, r.label) (· ++ [⟨r, some st.nextTimer⟩]) st.announcements,
      pending := st.pending ++ [st.nextTimer],
      nextTimer := st.nextTimer + 1 } := by
  obtain ⟨hN, hM, hPN, hPB, hTTL⟩ := hi
  obtain ⟨pre, post, hL, hR⟩ :=
    ents_abm (r.type, r.label) (· ++ [(⟨r, some st.nextTimer⟩ : AnnEntry)]) st.announcements
  have hE' : allEntries { st with
      announcements :=
        abucketmod (r.type, r.label) (· ++ [⟨r, some st.nextTimer⟩]) st.announcements,
      pending := st.pending ++ [st.nextTimer],
      nextTimer := st.nextTimer + 1 } =
      pre ++ (((alookup (r.type, r.label) st.announcements).getD []) ++
        [(⟨r, some st.nextTimer⟩ : AnnEntry)]) ++ post := hR
  have hE : allEntries st =
      pre ++ ((alookup (r.type, r.label) st.announcements).getD []) ++ post := hL
  have hpermE : (allEntries { st with
      announcements :=
        abucketmod (r.type, r.label) (· ++ [⟨r, some st.nextTimer⟩]) st.announcements,
      pending := st.pending ++ [st.nextTimer],
      nextTimer := st.nextTimer + 1 }).Perm
      ((⟨r, some st.nextTimer⟩ : AnnEntry) :: allEntries st) := by
    rw [hE', hE]; exact perm_insert_middle _ _ _ _
  have hpermT : (entryTimers { st with
      announcements :=
        abucketmod (r.type, r.label) (· ++ [⟨r, some st.nextTimer⟩]) st.announcements,
      pending := st.pending ++ [st.nextTimer],
      nextTimer := st.nextTimer + 1 }).Perm (st.nextTimer :: entryTimers st) := by
    have := hpermE.filterMap (·.timer)
    simpa [entryTimers] using this
  have hfresh : st.nextTimer ∉ entryTimers st := fun hmem =>
    Nat.lt_irrefl st.nextTimer (hPB _ (hM _ hmem))
  refine ⟨?_, ?_, ?_, ?_, ?_⟩
  · exact hpermT.nodup_iff.mpr (List.nodup_cons.mpr ⟨hfresh, hN⟩)
  · intro t ht
    rcases List.mem_cons.mp (hpermT.mem_iff.mp ht) with h | h
    · simp [h]
    · simp [hM _ h]
  · have hnp : st.nextTimer ∉ st.pending := fun hmem => Nat.lt_irrefl _ (hPB _ hmem)
    simpa [List.nodup_append] using ⟨hPN, hnp⟩
  · intro t ht
    rcases List.mem_append.mp ht with h | h
    · exact Nat.lt_succ_of_lt (hPB _ h)
    · simp at h
      simp [h]
  · intro e he ht
    rcases List.mem_cons.mp (hpermE.mem_iff.mp he) with h | h
    · subst h
      simpa using hr
    · exact hTTL e h ht

theorem timerInv_announce_false (st : State) (r : service) (e0 : AnnEntry)
    (he0 : e0.timer = none) (hi : TimerInv st) : TimerInv { st with
      announcements := abucketmod (r.type, r.label) (· ++ [e0]) st.announcements } := by
  obtain ⟨hN, hM, hPN, hPB, hTTL⟩ := hi
  obtain ⟨pre, post, hL, hR⟩ :=
    ents_abm (r.type, r.label) (· ++ [e0]) st.announcements
  have hE' : allEntries { st with
      announcements := abucketmod (r.type, r.label) (· ++ [e0]) st.announcements } =
      pre ++ (((alookup (r.type, r.label) st.announcements).getD []) ++ [e0]) ++ post := hR
  have hE : allEntries st =
      pre ++ ((alookup (r.type, r.label) st.announcements).getD []) ++ post := hL
  have hpermE : (allEntries { st with
      announcements := abucketmod (r.type, r.label) (· ++ [e0]) st.announcements }).Perm
      (e0 :: allEntries st) := by
    rw [hE', hE]; exact perm_insert_middle _ _ _ _
  have hpermT : (entryTimers { st with
      announcements := abucketmod (r.type, r.label) (· ++ [e0]) st.announcements }).Perm
      (entryTimers st) := by
    have := hpermE.filterMap (·.timer)
    simpa [entryTimers, he0] using this
  refine ⟨hpermT.nodup_iff.mpr hN, ?_, hPN, hPB, ?_⟩
  · intro t ht
    exact hM _ (hpermT.mem_iff.mp ht)
  · intro e he ht
    rcases List.mem_cons.mp (hpermE.mem_iff.mp he) with h | h
    · subst h
      simp [he0] at ht
    · exact hTTL e h ht

theorem timerInv_announce {st : State} {r : service} {bc : Bool} {st' : State} {tr : List ev}
    (h : announce st r bc = .ok (st', tr)) (hi : TimerInv st) : TimerInv st' := by
  unfold announce at h
  split at h
  · exact absurd h (by simp)
  dsimp only at h
  split at h
  · rename_i hb
    simp only [Except.ok.injEq, Prod.mk.injEq] at h
    obtain ⟨h1, h2⟩ := h
    have hr : 0 < r.ttl := of_decide_eq_true (Bool.and_eq_true .. |>.mp hb).2
    exact h1 ▸ timerInv_announce_true st r hr hi
  · simp only [Except.ok.injEq, Prod.mk.injEq] at h
    obtain ⟨h1, h2⟩ := h
    exact h1 ▸ timerInv_announce_false st r ⟨r, none⟩ rfl hi

theorem nodup_filterMap_inj {g : α → Option β} : ∀ {l : List α},
    (l.filterMap g).Nodup → ∀ {a b : α} {t : β}, a ∈ l → b ∈ l →
      g a = some t → g b = some t → a = b := by
  intro l
  induction l with
  | nil => intro _ a b t ha; simp at ha
  | cons x xs ih =>
    intro hn a b t ha hb hga hgb
    rcases hgx : g x with _ | y
    · have hn' : (xs.filterMap g).Nodup := by
        simpa [List.filterMap_cons, hgx] using hn
      rcases List.mem_cons.mp ha with h | h
      · subst h; rw [hgx] at hga; exact absurd hga (by simp)
      rcases List.mem_cons.mp hb with h' | h'
      · subst h'; rw [hgx] at hgb; exact absurd hgb (by simp)
      exact ih hn' h h' hga hgb
    · have hn' : y ∉ xs.filterMap g ∧ (xs.filterMap g).Nodup := by
        simpa [List.filterMap_cons, hgx, List.nodup_cons] using hn
      rcases List.mem_cons.mp ha with h | h <;> rcases List.mem_cons.mp hb with h' | h'
      · rw [h, h']
      · subst h
        rw [hgx] at hga
        have hyt : y = t := by simpa using hga
        exact absurd (List.mem_filterMap.mpr ⟨b, h', hyt ▸ hgb⟩) hn'.1
      · subst h'
        rw [hgx] at hgb
        have hyt : y = t := by simpa using hgb
        exact absurd (List.mem_filterMap.mpr ⟨a, h, hyt ▸ hga⟩) hn'.1
      · exact ih hn'.2 h h' hga hgb

theorem timerInv_unannounce (st : State) (r : service) (hi : TimerInv st) :
    TimerInv (unannounce st r).1 := by
  obtain ⟨hN, hM, hPN, hPB, hTTL⟩ := hi
  unfold unannounce
  dsimp only
  obtain ⟨pre, post, hL, hR⟩ :=
    ents_abm ((service.type { r with ttl := 0 }), ({ r with ttl := 0 } : service).label)
      (fun b => b.filter fun e => !sequal e.svc { r with ttl := 0 }) st.announcements
  set r0 : service := { r with ttl := 0 } with hr0
  set key : Key := (r0.type, r0.label) with hkey
  set b0 := (alookup key st.announcements).getD [] with hb0
  set q : AnnEntry → Bool := fun e => !sequal e.svc r0 with hq
  set removed := (b0.filter fun e => sequal e.svc r0).filterMap (·.timer) with hrm
  have hsubE : List.Sublist
      (entsOf (abucketmod key (fun b => b.filter q) st.announcements))
      (entsOf st.announcements) := by
    rw [hR, hL]
    exact ((List.filter_sublist _).append_left pre).append (List.Sublist.refl post)
  have hsubT : List.Sublist
      ((entsOf (abucketmod key (fun b => b.filter q) st.announcements)).filterMap (·.timer))
      (entryTimers st) := hsubE.filterMap _
  have hTsplit : entryTimers st =
      pre.filterMap (·.timer) ++ (b0.filterMap (·.timer) ++ post.filterMap (·.timer)) := by
    unfold entryTimers allEntries
    rw [hL]
    simp [List.filterMap_append]
  have hTN := hN
  rw [hTsplit, List.nodup_append] at hTN
  obtain ⟨hnP, hnBQ, hdPBQ⟩ := hTN
  rw [List.nodup_append] at hnBQ
  obtain ⟨hnB, hnQ, hdBQ⟩ := hnBQ
  refine ⟨?_, ?_, ?_, ?_, ?_⟩
  · exact hN.sublist hsubT
  · intro t ht
    have htold : t ∈ entryTimers st := hsubT.subset ht
    refine List.mem_filter.mpr ⟨hM _ htold, ?_⟩
    have hgoal : t ∉ removed → (!removed.contains t) = true := by
      intro hnm
      simp [List.elem_eq_mem, hnm]
    refine hgoal ?_
    intro htrm
    obtain ⟨e2, he2mem, he2t⟩ := List.mem_filterMap.mp htrm
    have he2b : e2 ∈ b0 := (List.mem_filter.mp he2mem).1
    have he2s : sequal e2.svc r0 = true := (List.mem_filter.mp he2mem).2
    have ht' : t ∈ (pre ++ (b0.filter q ++ post)).filterMap (·.timer) := by
      have hra : entsOf (abucketmod key (fun b => b.filter q) st.announcements) =
          pre ++ (b0.filter q ++ post) := by rw [hR]; simp
      have ht2 : t ∈ (entsOf (abucketmod key (fun b => b.filter q)
          st.announcements)).filterMap (·.timer) := ht
      rwa [hra] at ht2
    simp only [List.filterMap_append, List.mem_append] at ht'
    have he2B : t ∈ b0.filterMap (·.timer) :=
      List.mem_filterMap.mpr ⟨e2, he2b, he2t⟩
    rcases ht' with h | h | h
    · exact (List.disjoint_append_right.mp hdPBQ).1 h he2B
    · obtain ⟨e1, he1mem, he1t⟩ := List.mem_filterMap.mp h
      have he1b : e1 ∈ b0 := (List.mem_filter.mp he1mem).1
      have he1q : q e1 = true := (List.mem_filter.mp he1mem).2
      have : e1 = e2 := nodup_filterMap_inj hnB he1b he2b he1t he2t
      rw [this, hq] at he1q
      simp [he2s] at he1q
    · obtain ⟨e1, he1mem, he1t⟩ := List.mem_filterMap.mp h
      have he1B : t ∈ post.filterMap (·.timer) :=
        List.mem_filterMap.mpr ⟨e1, he1mem, he1t⟩
      exact hdBQ he2B he1B
  · exact hPN.filter _
  · intro t ht
    exact hPB _ (List.mem_filter.mp ht).1
  · intro e he ht
    exact hTTL e (hsubE.subset he) ht

theorem fireBucket_some {n t : Nat} : ∀ {b b' : List AnnEntry} {s : service},
    fireBucket n t b = (b', some s) →
    ∃ u e v, b = u ++ e :: v ∧ e.timer = some t ∧ s = e.svc ∧
      b' = u ++ { e with timer := some n } :: v := by
  intro b
  induction b with
  | nil => intro b' s h; simp [fireBucket] at h
  | cons e es ih =>
    intro b' s h
    unfold fireBucket at h
    split at h
    · rename_i het
      simp only [Prod.mk.injEq, Option.some.injEq] at h
      exact ⟨[], e, es, by simp, by simpa using het, h.2.symm, by simp [h.1.symm]⟩
    · rcases hx : fireBucket n t es with ⟨es', r⟩
      rw [hx] at h
      dsimp only at h
      simp only [Prod.mk.injEq] at h
      obtain ⟨h1, h2⟩ := h
      subst h2
      obtain ⟨u, e0, v, hb, he0, hs, hb'⟩ := ih hx
      exact ⟨e :: u, e0, v, by simp [hb], he0, hs, by simp [← h1, hb']⟩

theorem fireAnn_some {n t : Nat} : ∀ {l l' : List (Key × List AnnEntry)} {s : service},
    fireAnn n t l = (l', some s) →
    ∃ U e V, entsOf l = U ++ e :: V ∧ e.timer = some t ∧ s = e.svc ∧
      entsOf l' = U ++ { e with timer := some n } :: V := by
  intro l
  induction l with
  | nil => intro l' s h; simp [fireAnn] at h
  | cons kv rest ih =>
    intro l' s h
    obtain ⟨k, es⟩ := kv
    unfold fireAnn at h
    rcases hx : fireBucket n t es with ⟨es', r⟩
    rw [hx] at h
    rcases r with _ | s0
    · dsimp only at h
      rcases hy : fireAnn n t rest with ⟨rest', r2⟩
      rw [hy] at h
      dsimp only at h
      simp only [Prod.mk.injEq] at h
      obtain ⟨h1, h2⟩ := h
      subst h2
      obtain ⟨U, e0, V, hb, he0, hs, hb'⟩ := ih hy
      refine ⟨es ++ U, e0, V, ?_, he0, hs, ?_⟩
      · simp only [entsOf] at hb ⊢
        simp [hb]
      · rw [← h1]
        simp only [entsOf] at hb' ⊢
        simp [hb']
    · dsimp only at h
      simp only [Prod.mk.injEq, Option.some.injEq] at h
      obtain ⟨h1, h2⟩ := h
      subst h2
      obtain ⟨u, e0, v, hb, he0, hs, hb'⟩ := fireBucket_some hx
      refine ⟨u, e0, v ++ entsOf rest, ?_, he0, hs, ?_⟩
      · simp only [entsOf]
        simp [hb]
      · rw [← h1]
        simp only [entsOf]
        simp [hb']

theorem timerInv_fire (st : State) (t : Nat) (hi : TimerInv st) :
    TimerInv (fireTimer st t).1 := by
  obtain ⟨hN, hM, hPN, hPB, hTTL⟩ := hi
  unfold fireTimer
  split
  · rcases hx : fireAnn st.nextTimer t st.announcements with ⟨ann', r⟩
    rcases r with _ | s
    · exact ⟨hN, hM, hPN, hPB, hTTL⟩
    · dsimp only
      obtain ⟨U, e0, V, hb, he0, hs, hb'⟩ := fireAnn_some hx
      have hTold : entryTimers st =
          U.filterMap (·.timer) ++ t :: V.filterMap (·.timer) := by
        unfold entryTimers allEntries
        rw [hb]
        simp [List.filterMap_append, List.filterMap_cons, he0]
      have hTnew : entryTimers { st with
          announcements := ann',
          pending := (st.pending.erase t) ++ [st.nextTimer],
          nextTimer := st.nextTimer + 1 } =
          U.filterMap (·.timer) ++ st.nextTimer :: V.filterMap (·.timer) := by
        have h0 : allEntries { st with
            announcements := ann',
            pending := (st.pending.erase t) ++ [st.nextTimer],
            nextTimer := st.nextTimer + 1 } =
            U ++ { e0 with timer := some st.nextTimer } :: V := hb'
        unfold entryTimers
        rw [h0]
        simp [List.filterMap_append, List.filterMap_cons]
      have hpermOld : (entryTimers st).Perm
          (t :: (U.filterMap (·.timer) ++ V.filterMap (·.timer))) := by
        rw [hTold]; exact List.perm_middle
      have hconsN := hpermOld.nodup_iff.mp hN
      have htn : t ∉ U.filterMap (·.timer) ++ V.filterMap (·.timer) :=
        (List.nodup_cons.mp hconsN).1
      have hnUV : (U.filterMap (·.timer) ++ V.filterMap (·.timer)).Nodup :=
        (List.nodup_cons.mp hconsN).2
      have hsubUV : ∀ x ∈ U.filterMap (·.timer) ++ V.filterMap (·.timer),
          x ∈ entryTimers st := fun x hx =>
        hpermOld.mem_iff.mpr (List.mem_cons_of_mem _ hx)
      have hfresh : st.nextTimer ∉ U.filterMap (·.timer) ++ V.filterMap (·.timer) :=
        fun hmem => Nat.lt_irrefl _ (hPB _ (hM _ (hsubUV _ hmem)))
      have hpermNew : (entryTimers { st with
          announcements := ann',
          pending := (st.pending.erase t) ++ [st.nextTimer],
          nextTimer := st.nextTimer + 1 }).Perm
          (st.nextTimer :: (U.filterMap (·.timer) ++ V.filterMap (·.timer))) := by
        rw [hTnew]; exact List.perm_middle
      refine ⟨?_, ?_, ?_, ?_, ?_⟩
      · exact hpermNew.nodup_iff.mpr (List.nodup_cons.mpr ⟨hfresh, hnUV⟩)
      · intro x hx
        rcases List.mem_cons.mp (hpermNew.mem_iff.mp hx) with h | h
        · simp [h]
        · have hxp : x ∈ st.pending := hM _ (hsubUV _ h)
          have hxt : x ≠ t := fun hxt => htn (hxt ▸ h)
          exact List.mem_append.mpr (Or.inl ((List.mem_erase_of_ne hxt).mpr hxp))
      · have hne : st.nextTimer ∉ st.pending.erase t :=
          fun hmem => Nat.lt_irrefl _ (hPB _ (List.erase_subset _ _ hmem))
        simpa [List.nodup_append] using ⟨hPN.erase t, hne⟩
      · intro x hx
        rcases List.mem_append.mp hx with h | h
        · exact Nat.lt_succ_of_lt (hPB _ (List.erase_subset _ _ h))
        · simp at h
          simp [h]
      · intro e he ht'
        have h0 : allEntries { st with
            announcements := ann',
            pending := (st.pending.erase t) ++ [st.nextTimer],
            nextTimer := st.nextTimer + 1 } =
            U ++ { e0 with timer := some st.nextTimer } :: V := hb'
        rw [h0] at he
        rcases List.mem_append.mp he with h | h
        · exact hTTL e (by unfold allEntries; rw [hb]; exact List.mem_append.mpr (Or.inl h)) ht'
        · rcases List.mem_cons.mp h with h | h
          · subst h
            have : 0 < e0.svc.ttl :=
              hTTL e0 (by unfold allEntries; rw [hb]; exact List.mem_append.mpr (Or.inr (List.mem_cons_self _ _)))
                (by simp [he0])
            simpa using this
          · exact hTTL e
              (by unfold allEntries; rw [hb]; exact List.mem_append.mpr (Or.inr (List.mem_cons_of_mem _ h))) ht'
  · exact ⟨hN, hM, hPN, hPB, hTTL⟩

theorem reach_timerInv {st : State} (h : Reach st) : TimerInv st := by
  induction h with
  | init ip routes junk =>
    refine ⟨?_, ?_, ?_, ?_, ?_⟩ <;>
      simp [entryTimers, allEntries, entsOf, initState, TimerInv]
  | ann st r b st' tr hr hok ih => exact timerInv_announce hok ih
  | unann st r hr ih => exact timerInv_unannounce st r ih
  | fire st t hr ih => exact timerInv_fire st t ih
  | pkt st sender dgram hr ih =>
    obtain ⟨h1, h2, h3⟩ := mdnsReady_frame3 st sender dgram
    exact timerInv_congr h1 h2 h3 ih

theorem suppressed_iff (st : State) (r : service) :
    suppressed st r = true ↔ annHasEqual st r := by
  unfold suppressed annHasEqual
  simp [List.any_eq_true, Bool.and_eq_true, beq_iff_eq]

theorem detected_service_suppressed {st : State} {r : service}
    (h : suppressed st r = true) : detected_service st r = (st, [ev.detected r]) := by
  simp [detected_service, h]

theorem bucketUb_cases (b : List (Option service)) :
    bucketUb b = [] ∨ bucketUb b = [ev.ub] := by
  unfold bucketUb
  split <;> simp

theorem update_cache_trace (st : State) (r : service) :
    (update_cache st r).2 = [] ∨ (update_cache st r).2 = [ev.ub] := by
  unfold update_cache
  dsimp only
  split
  · split
    · simp
    · simp
    · exact bucketUb_cases _
  · exact bucketUb_cases _

theorem sentEvents_append (a b : List ev) :
    sentEvents (a ++ b) = sentEvents a ++ sentEvents b := by
  simp [sentEvents]

theorem detectedEvents_append (a b : List ev) :
    detectedEvents (a ++ b) = detectedEvents a ++ detectedEvents b := by
  simp [detectedEvents]

theorem sentEvents_discCb (l : List Nat) (r : service) :
    sentEvents (l.map fun i => ev.discCb i r) = [] := by
  induction l with
  | nil => rfl
  | cons x xs ih => simp [sentEvents] at ih ⊢

theorem sentEvents_queryCb (l : List Nat) (r : service) :
    sentEvents (l.map fun i => ev.queryCb i r) = [] := by
  induction l with
  | nil => rfl
  | cons x xs ih => simp [sentEvents] at ih ⊢

theorem detected_service_no_sent (st : State) (r : service) :
    sentEvents (detected_service st r).2 = [] := by
  unfold detected_service
  split
  · simp [sentEvents]
  · dsimp only
    rcases hx : update_cache { st with
        query_map := aerase (r.type, r.label) st.query_map } r with ⟨st2, trc⟩
    have htrc := update_cache_trace { st with
        query_map := aerase (r.type, r.label) st.query_map } r
    rw [hx] at htrc
    simp only [hx]
    have hc : ∀ (l : List ev), sentEvents (ev.detected r :: l) = sentEvents l := by
      intro l
      simp [sentEvents]
    have htc : ∀ (X : List (Key × List Nat)),
        sentEvents ((X.map ((List.map fun i => ev.discCb i r) ∘ Prod.snd)).flatten) = [] := by
      intro X
      induction X with
      | nil => rfl
      | cons kv rest ih =>
        simp [Function.comp, sentEvents_append, sentEvents_discCb] at ih ⊢
        exact ih
    rcases htrc with h | h <;> dsimp only at h <;>
      simp [h, hc, sentEvents_append, sentEvents_discCb, sentEvents_queryCb, htc,
        show sentEvents ([] : List ev) = [] from rfl,
        show sentEvents [ev.ub] = [] from rfl]

theorem deliver_fold_suppressed (st0 : State) : ∀ (b : List (Option service)) (tr0 : List ev),
    (∀ o ∈ b, ∃ s, o = some s ∧ suppressed st0 s = true) →
    b.foldl (fun acc o => match o with
      | some s => ((detected_service acc.1 s).1, acc.2 ++ (detected_service acc.1 s).2)
      | none => (acc.1, acc.2 ++ [ev.ub])) (st0, tr0) =
    (st0, tr0 ++ b.filterMap fun o => o.map ev.detected) := by
  intro b
  induction b with
  | nil => intro tr0 _; simp
  | cons o rest ih =>
    intro tr0 hall
    obtain ⟨s, ho, hsup⟩ := hall o (List.mem_cons_self _ _)
    subst ho
    have hstep := detected_service_suppressed hsup
    simp only [List.foldl_cons, hstep]
    have := ih (tr0 ++ [ev.detected s]) (fun o ho => hall o (List.mem_cons_of_mem _ ho))
    simpa using this

theorem deliverCached_suppressed {st : State} {b : List (Option service)}
    (h : ∀ o ∈ b, ∃ s, o = some s ∧ suppressed st s = true) :
    deliverCached st b = (st, b.filterMap fun o => o.map ev.detected) := by
  have := deliver_fold_suppressed st b [] h
  simpa [deliverCached] using this

theorem deliver_fold_no_sent : ∀ (b : List (Option service)) (st0 : State) (tr0 : List ev),
    sentEvents tr0 = [] →
    sentEvents ((b.foldl (fun acc o => match o with
      | some s => ((detected_service acc.1 s).1, acc.2 ++ (detected_service acc.1 s).2)
      | none => (acc.1, acc.2 ++ [ev.ub])) (st0, tr0)).2) = [] := by
  intro b
  induction b with
  | nil => intro st0 tr0 h; simpa using h
  | cons o rest ih =>
    intro st0 tr0 h
    rcases o with _ | s
    · simp only [List.foldl_cons]
      exact ih _ _ (by simp [sentEvents_append, h, show sentEvents [ev.ub] = [] from rfl])
    · simp only [List.foldl_cons]
      exact ih _ _ (by simp [sentEvents_append, h, detected_service_no_sent])

theorem deliverCached_no_sent (st : State) (b : List (Option service)) :
    sentEvents (deliverCached st b).2 = [] :=
  deliver_fold_no_sent b st [] rfl

theorem detectedEvents_map_sent (f : AnnEntry → List Nat) (l : List AnnEntry) :
    detectedEvents (l.map fun e => ev.sent (f e)) = [] := by
  induction l with
  | nil => rfl
  | cons x xs ih => simp [detectedEvents] at ih ⊢

theorem answerIfKnown_no_detected (st : State) (qt : Nat) (l : String) :
    detectedEvents (answerIfKnown st qt l).1 = [] := by
  unfold answerIfKnown
  split
  · exact detectedEvents_map_sent _ _
  · rfl

theorem readQuestion_trace {st : State} {b : pbuf} {tr : List ev} {b1 : pbuf} {k : Bool}
    (h : readQuestion st b = some (tr, b1, k)) : detectedEvents tr = [] := by
  unfold readQuestion at h
  rcases hx1 : readLabel b with _ | ⟨label, c1⟩ <;> rw [hx1] at h <;> dsimp only at h
  · exact absurd h (by simp)
  rcases hx2 : c1.readU16 with _ | ⟨qt, c2⟩ <;> rw [hx2] at h <;> dsimp only at h
  · exact absurd h (by simp)
  rcases hx3 : c2.readU16 with _ | ⟨cls, c3⟩ <;> rw [hx3] at h <;> dsimp only at h
  · exact absurd h (by simp)
  simp only [Option.some.injEq, Prod.mk.injEq] at h
  exact h.1 ▸ answerIfKnown_no_detected st qt label

theorem runQuestions_no_detected (st : State) : ∀ (n : Nat) (b : pbuf),
    detectedEvents (runQuestions st n b).1 = [] := by
  intro n
  induction n with
  | zero => intro b; rfl
  | succ n ih =>
    intro b
    unfold runQuestions
    rcases hx : readQuestion st b with _ | ⟨tr, b1, known⟩ <;> dsimp only
    · rfl
    · rcases known with _ | _
      · exact readQuestion_trace hx
      · simp [detectedEvents_append, readQuestion_trace hx, ih b1]

/-- C4 counterexample: the wildcard pattern `*.local` does match the bare
label `local` — a label always ends with itself — contradicting the
claimed equation `match("*.local", "local") = false`. -/
theorem C4_wildcard_matches_bare_suffix : discovery_match "*.local" "local" = true := by
  decide

/-- C4 (amended): the three other claimed equations hold, and in general
a `*.`-pattern matches exactly the labels having the text after `*.` as
a suffix (the label itself included), while any other pattern matches
only the identical label, case-sensitively. -/
theorem C4_matcher_spec :
    discovery_match "*.local" "foo.local" = true ∧
    discovery_match "*.local" "local" = true ∧
    discovery_match "foo.local" "foo.local" = true ∧
    discovery_match "foo.local" "Foo.local" = false ∧
    (∀ p l : String, startswith p "*." = true →
      (discovery_match p l = true ↔ (p.drop 2).data <:+ l.data)) ∧
    (∀ p l : String, startswith p "*." = false →
      (discovery_match p l = true ↔ p = l)) := by
  refine ⟨by decide, by decide, by decide, by decide, ?_, ?_⟩
  · intro p l hp
    simp [discovery_match, hp, endswith, List.isSuffixOf_iff_suffix]
  · intro p l hp
    simp [discovery_match, hp]

/-- C4 witness: the wildcard characterization applied at the concrete
pattern `*.local` and label `foo.local`. -/
theorem C4_matcher_spec_witness :
    startswith "*.local" "*." = true ∧
    (discovery_match "*.local" "foo.local" = true ↔
      (("*.local".drop 2).data <:+ "foo.local".data)) :=
  ⟨by decide, C4_matcher_spec.2.2.2.2.1 "*.local" "foo.local" (by decide)⟩

/-- C8: each guarded entry point — `query` (three-argument form),
`on_discovery` and `announce` — rejects a name longer than 100 bytes
with `NameTooLong`, producing no new state, no registration, no timer
and no packet (the error result carries nothing), and accepts any name
of at most 100 bytes. -/
theorem C8_name_too_long_rejected :
    (∀ (st : State) (name : String) (qt cb : Nat),
      100 < name.utf8ByteSize → query3 st name qt cb = .error .nameTooLong) ∧
    (∀ (st : State) (name : String) (qt cb : Nat),
      name.utf8ByteSize ≤ 100 → ∃ res, query3 st name qt cb = .ok res) ∧
    (∀ (st : State) (pattern : String) (qt cb : Nat),
      100 < pattern.utf8ByteSize → on_discovery st pattern qt cb = .error .nameTooLong) ∧
    (∀ (st : State) (pattern : String) (qt cb : Nat),
      pattern.utf8ByteSize ≤ 100 → ∃ res, on_discovery st pattern qt cb = .ok res) ∧
    (∀ (st : State) (r : service) (bc : Bool),
      100 < r.label.utf8ByteSize → announce st r bc = .error .nameTooLong) ∧
    (∀ (st : State) (r : service) (bc : Bool),
      r.label.utf8ByteSize ≤ 100 → ∃ res, announce st r bc = .ok res) := by
  refine ⟨?_, ?_, ?_, ?_, ?_, ?_⟩
  · intro st name qt cb h
    simp [query3, h]
  · intro st name qt cb h
    unfold query3
    rw [if_neg (by simpa using Nat.not_lt.mpr h)]
    exact ⟨_, rfl⟩
  · intro st pattern qt cb h
    simp [on_discovery, h]
  · intro st pattern qt cb h
    unfold on_discovery
    rw [if_neg (by simpa using Nat.not_lt.mpr h)]
    exact ⟨_, rfl⟩
  · intro st r bc h
    simp [announce, h]
  · intro st r bc h
    unfold announce
    rw [if_neg (by simpa using Nat.not_lt.mpr h)]
    dsimp only
    split <;> exact ⟨_, rfl⟩

/-- C8 witness: a 101-byte name is rejected by all three entry points
and a short name is accepted, at concrete inputs. -/
theorem C8_name_too_long_rejected_witness :
    query3 st0 n101 12 7 = .error .nameTooLong ∧
    on_discovery st0 n101 12 7 = .error .nameTooLong ∧
    announce st0 ⟨n101, 60, .ptr "x"⟩ false = .error .nameTooLong ∧
    (∃ res, query3 st0 "x.local" 12 7 = .ok res) :=
  ⟨C8_name_too_long_rejected.1 st0 n101 12 7 (by decide),
   C8_name_too_long_rejected.2.2.1 st0 n101 12 7 (by decide),
   C8_name_too_long_rejected.2.2.2.2.1 st0 ⟨n101, 60, .ptr "x"⟩ false (by decide),
   C8_name_too_long_rejected.2.1 st0 "x.local" 12 7 (by decide)⟩

/-- C10: every received datagram overwrites the engine's `ip4` with the
route resolver's answer for the sender before the minimum-length check
(conjuncts 1 and 2); the resolver yields 0 when no route matches
(conjunct 3); a short datagram changes nothing else and produces no
events (conjunct 1: the resulting state differs only in `ip4`); and an
A response for the 0.0.0.0 sentinel substitutes the stored `ip4` into
its rdata (conjunct 4). -/
theorem C10_short_datagram_sets_ip :
    (∀ (st : State) (sender : Nat) (dgram : List Nat), dgram.length < 16 →
      mdnsReady st sender dgram =
        ({ st with ip4 := routeGetIpForRoute st.routes sender }, [])) ∧
    (∀ (st : State) (sender : Nat) (dgram : List Nat),
      (mdnsReady st sender dgram).1.ip4 = routeGetIpForRoute st.routes sender) ∧
    (∀ (routes : List ip_route4) (sender : Nat),
      (∀ rt ∈ routes, rtMatch rt sender = false) →
      routeGetIpForRoute routes sender = 0) ∧
    (∀ (st : State) (label : String) (ttl : Nat),
      rdataBody st ⟨label, ttl, .a 0 0 0 0⟩ = leBytes4 st.ip4) := by
  refine ⟨?_, mdnsReady_ip4, ?_, ?_⟩
  · intro st sender dgram h
    simp [mdnsReady, h]
  · intro routes sender h
    unfold routeGetIpForRoute
    rw [List.find?_eq_none.mpr (fun rt hrt => by simp [h rt hrt])]
  · intro st label ttl
    simp [rdataBody]

/-- C10 witness: concrete applications — a 4-byte datagram from a peer
inside `rt10`'s subnet sets `ip4` to that route's address and drops the
datagram with no events; a peer matching no route resolves to 0. -/
theorem C10_short_datagram_sets_ip_witness :
    mdnsReady st10 0x0B00000A [0, 1, 2, 3] =
      ({ st10 with ip4 := rt10.ip }, []) ∧
    routeGetIpForRoute [] 5 = 0 ∧
    rdataBody st10 ⟨"host.local", 60, .a 0 0 0 0⟩ = leBytes4 st10.ip4 :=
  ⟨by
    have h := C10_short_datagram_sets_ip.1 st10 0x0B00000A [0, 1, 2, 3] (by decide)
    rw [h]
    decide,
   C10_short_datagram_sets_ip.2.2.1 [] 5 (by simp),
   C10_short_datagram_sets_ip.2.2.2 st10 "host.local" 60⟩

/-- C5: loopback suppression.  If `r` equals `R`, then (1) right after
`announce R broadcast=true` succeeds, and (2) in any state whose
announcement registry still holds a record equal to `R` under a key of
`R`'s type, `detected_service` on `r` returns immediately: the state is
unchanged and the trace holds only the `detected` marker — zero
discovery (and query) callbacks are invoked. -/
theorem C5_loopback_suppression (st : State) (R r : service) (hr : sequal r R = true) :
    (∀ (st' : State) (tr : List ev), announce st R true = .ok (st', tr) →
      detected_service st' r = (st', [ev.detected r])) ∧
    (∀ st' : State, annHasEqual st' R →
      detected_service st' r = (st', [ev.detected r])) := by
  have hsup : ∀ st' : State, annHasEqual st' R → suppressed st' r = true := by
    intro st' ⟨kv, hkv, hty, e, he, heq⟩
    rw [suppressed_iff]
    exact ⟨kv, hkv, by rw [hty, sequal_type hr], e, he, sequal_common heq hr⟩
  refine ⟨?_, fun st' h => detected_service_suppressed (hsup st' h)⟩
  intro st' tr h
  refine detected_service_suppressed (hsup st' ?_)
  unfold announce at h
  split at h
  · exact absurd h (by simp)
  dsimp only at h
  split at h <;> simp only [Except.ok.injEq, Prod.mk.injEq] at h <;> obtain ⟨h1, _⟩ := h <;>
    refine h1 ▸ ?_
  · exact ⟨((R.type, R.label),
      ((alookup (R.type, R.label) st.announcements).getD []) ++ [⟨R, some st.nextTimer⟩]),
      alookup_mem (alookup_abm _ _ _), rfl, ⟨R, some st.nextTimer⟩, by simp, sequal_refl R⟩
  · exact ⟨((R.type, R.label),
      ((alookup (R.type, R.label) st.announcements).getD []) ++ [⟨R, none⟩]),
      alookup_mem (alookup_abm _ _ _), rfl, ⟨R, none⟩, by simp, sequal_refl R⟩

/-- C5 witness: with `pC` announced (broadcast false would do, here the
registry simply holds it), delivering an equal record is suppressed at
a concrete state. -/
theorem C5_loopback_suppression_witness :
    sequal rP pC = true ∧
    detected_service st9 rP = (st9, [ev.detected rP]) :=
  ⟨by decide,
   (C5_loopback_suppression st9 pC rP (by decide)).2 st9
     ⟨((12, "_apple-midi._udp.local"), [⟨pC, none⟩]), by decide, by decide,
      ⟨pC, none⟩, by decide, by decide⟩⟩

/-- C2 (code bug, documented in spec §9): for the SRV record of spec §8
scenario 4, the missing `break` makes `send_response` fall through from
the SRV case into the TXT case, so the emitted rdata is the claimed
body (priority 0, weight 0, port 0x138C, hostname label) followed by a
label encoded from indeterminate memory (`srvJunk`) — never exactly the
claimed body, whatever those bytes are — and the back-patched rdlength
covers the extra bytes too. -/
theorem C2_srv_fallthrough_appends_txt (st : State) :
    rdataBody st srvRec = srvClaimedBody ++ encodeLabel st.srvJunk ∧
    rdataBody st srvRec ≠ srvClaimedBody ∧
    sendResponseBytes st srvRec =
      [0, 0, 0x84, 0, 0, 0, 0, 1, 0, 0, 0, 0] ++ encodeLabel srvRec.label ++
        u16be 33 ++ u16be 1 ++ u32be 60 ++
        u16be (srvClaimedBody ++ encodeLabel st.srvJunk).length ++
        (srvClaimedBody ++ encodeLabel st.srvJunk) := by
  have hb : rdataBody st srvRec = srvClaimedBody ++ encodeLabel st.srvJunk := by
    simp [rdataBody, srvRec, srvClaimedBody, u16be]
  refine ⟨hb, ?_, ?_⟩
  · rw [hb]
    intro hEq
    have hlen := congrArg List.length hEq
    simp [encodeLabel] at hlen
  · unfold sendResponseBytes
    rw [hb]
    rfl

/-- C3 (code bug, documented in spec §9): `update_cache` on a ttl-0
record whose cache bucket holds two equal entries removes only one of
them — the single-iterator `erase(remove_if(...))` erases one slot, not
the matched range — leaving an entry equal to the goodbye record in the
bucket, where the claim requires none to remain. -/
theorem C3_ttl0_erase_leaves_equal_entry :
    rP.ttl = 0 ∧
    sequal pC rP = true ∧
    (alookup (12, "_apple-midi._udp.local") st3.cache).getD [] =
      [some xC, some pC, some pC] ∧
    (alookup (12, "_apple-midi._udp.local") (update_cache st3 rP).1.cache).getD [] =
      [some xC, some pC] ∧
    ((alookup (12, "_apple-midi._udp.local") (update_cache st3 rP).1.cache).getD []).any
      (slotEq rP) = true := by
  decide

/-- C6 counterexample: announcing the ttl-60 record `R0` with
`broadcast = false` from a fresh engine stores it in the registry with
ttl 60 but schedules no reannouncement timer at all — the stored
entry's timer handle is `none` and the pending-timer set is empty —
refuting "every stored record with ttl > 0 has exactly one scheduled
reannouncement timer"; the resulting state is reachable. -/
theorem C6_broadcast_false_no_timer :
    announce st0 R0 false = .ok (st6, []) ∧
    R0.ttl = 60 ∧
    (allEntries st6).map (fun e => (e.svc.ttl, e.timer)) = [(60, none)] ∧
    st6.pending = [] ∧
    Reach st6 := by
  refine ⟨by rfl, by decide, by decide, by decide, ?_⟩
  exact Reach.ann st0 R0 false st6 [] (Reach.init 0 [] "") (by rfl)

/-- C6 (amended): in every reachable state, the timer handles held by
stored announcements are pairwise distinct and pending, pending ids are
distinct and below the fresh-id counter, and any stored record holding
a timer has ttl > 0 — i.e. at most one scheduled reannouncement timer
per record, exactly one for records announced with broadcast=true and
ttl > 0, and none for broadcast=false announcements. -/
theorem C6_timer_invariant (st : State) (h : Reach st) : TimerInv st :=
  reach_timerInv h

/-- C6 witness: the invariant at the concrete reachable state `st6`. -/
theorem C6_timer_invariant_witness : TimerInv st6 :=
  C6_timer_invariant st6
    (Reach.ann st0 R0 false st6 [] (Reach.init 0 [] "") (by rfl))

/-- C7 counterexample: with a present-but-empty cache bucket for
`(A, "x.local")` (as left behind by a goodbye for a never-cached key),
`query` finds the bucket, delivers nothing, registers the callback and
returns — sending no packet — where the claim requires the question
packet to be sent whenever the bucket holds no entries. -/
theorem C7_empty_bucket_sends_nothing :
    alookup (1, "x.local") st7.cache = some [] ∧
    query3 st7 "x.local" 1 7 =
      .ok ({ st7 with query_map := [((1, "x.local"), [7])] }, []) := by
  constructor
  · decide
  · rfl

/-- C7 (amended): if the cache has a bucket for `(type, name)` — even an
empty one — `query` delivers each of its entries through
`detected_service` (as though just observed) after registering `cb`,
and sends no packet; only when the cache has no bucket at all for the
key does it build the question packet — transaction id 0, qdcount 1,
QNAME, QTYPE, QCLASS 1 — and send exactly that packet once. -/
theorem C7_query_cache_short_circuit (st : State) (name : String) (qt cb : Nat)
    (hlen : name.utf8ByteSize ≤ 100) :
    (∀ b, alookup (qt, name) st.cache = some b →
      query3 st name qt cb =
        .ok (deliverCached
          { st with query_map := abucketmod (qt, name) (· ++ [cb]) st.query_map } b) ∧
      sentEvents (deliverCached
        { st with query_map := abucketmod (qt, name) (· ++ [cb]) st.query_map } b).2 = []) ∧
    (alookup (qt, name) st.cache = none →
      query3 st name qt cb =
        .ok ({ st with query_map := abucketmod (qt, name) (· ++ [cb]) st.query_map },
          [ev.sent (queryPacket name qt)]) ∧
      queryPacket name qt =
        [0, 0, 0, 0, 0, 1, 0, 0, 0, 0, 0, 0] ++ encodeLabel name ++ u16be qt ++ u16be 1) := by
  constructor
  · intro b hb
    constructor
    · unfold query3
      rw [if_neg (by simpa using Nat.not_lt.mpr hlen)]
      unfold query2
      dsimp only
      rw [hb]
    · exact deliverCached_no_sent _ b
  · intro hb
    constructor
    · unfold query3
      rw [if_neg (by simpa using Nat.not_lt.mpr hlen)]
      unfold query2
      dsimp only
      rw [hb]
    · rfl

/-- C7 witness: applied at a concrete state caching one observed PTR
record (no announcements, so nothing is suppressed), and at a concrete
state with no bucket, where the wire bytes of the question packet are
computed. -/
theorem C7_query_cache_short_circuit_witness :
    (query3 { st0 with cache := [((12, "_apple-midi._udp.local"), [some pC])] }
        "_apple-midi._udp.local" 12 7 =
      .ok (deliverCached
        { st0 with
            cache := [((12, "_apple-midi._udp.local"), [some pC])],
            query_map := [((12, "_apple-midi._udp.local"), [7])] } [some pC]) ∧
      sentEvents (deliverCached
        { st0 with
            cache := [((12, "_apple-midi._udp.local"), [some pC])],
            query_map := [((12, "_apple-midi._udp.local"), [7])] } [some pC]).2 = []) ∧
    (query3 st0 "x.local" 1 7 =
      .ok ({ st0 with query_map := [((1, "x.local"), [7])] },
        [ev.sent (queryPacket "x.local" 1)]) ∧
    queryPacket "x.local" 1 =
      [0, 0, 0, 0, 0, 1, 0, 0, 0, 0, 0, 0] ++ encodeLabel "x.local" ++ u16be 1 ++ u16be 1) := by
  constructor
  · have h := (C7_query_cache_short_circuit
      { st0 with cache := [((12, "_apple-midi._udp.local"), [some pC])] }
      "_apple-midi._udp.local" 12 7 (by decide)).1 [some pC] (by decide)
    exact h
  · have h := (C7_query_cache_short_circuit st0 "x.local" 1 7 (by decide)).2 (by decide)
    exact h

/-- C9: when the cache bucket for `(type, name)` is non-empty and every
entry in it equals some currently-announced record under a key of the
same type (`annHasEqual`), `query(name, type, cb)` registers `cb`,
delivers each cached entry into `detected_service` where loopback
suppression drops it, and returns: the resulting state is exactly the
original plus the registered callback, the trace holds only `detected`
markers — no packet sent, no callback invoked — and `cb` stays
registered under `(type, name)`. -/
theorem C9_suppressed_cache_delivery (st : State) (name : String) (qt cb : Nat)
    (b : List (Option service))
    (hlen : name.utf8ByteSize ≤ 100)
    (hb : alookup (qt, name) st.cache = some b)
    (_hne : b ≠ [])
    (hsup : ∀ o ∈ b, ∃ s, o = some s ∧ s.type = qt ∧ annHasEqual st s) :
    query3 st name qt cb =
      .ok ({ st with query_map := abucketmod (qt, name) (· ++ [cb]) st.query_map },
        b.filterMap fun o => o.map ev.detected) ∧
    (∀ e ∈ (b.filterMap fun o => o.map ev.detected), ∃ s, e = ev.detected s) ∧
    cb ∈ (alookup (qt, name)
      (abucketmod (qt, name) (· ++ [cb]) st.query_map)).getD [] := by
  refine ⟨?_, ?_, ?_⟩
  · unfold query3
    rw [if_neg (by simpa using Nat.not_lt.mpr hlen)]
    unfold query2
    dsimp only
    rw [hb]
    dsimp only
    rw [deliverCached_suppressed]
    intro o ho
    obtain ⟨s, hos, _, hann⟩ := hsup o ho
    exact ⟨s, hos, (suppressed_iff _ s).mpr hann⟩
  · intro e he
    obtain ⟨o, _, hoe⟩ := List.mem_filterMap.mp he
    rcases o with _ | s
    · exact absurd hoe (by simp)
    · exact ⟨s, by simpa using hoe.symm⟩
  · rw [alookup_abm]
    simp

/-- C9 witness: at the concrete state `st9`, whose only cached entry for
`(PTR, _apple-midi._udp.local)` equals the announced record. -/
theorem C9_suppressed_cache_delivery_witness :
    query3 st9 "_apple-midi._udp.local" 12 7 =
      .ok ({ st9 with query_map := [((12, "_apple-midi._udp.local"), [7])] },
        [ev.detected pC]) ∧
    7 ∈ (alookup (12, "_apple-midi._udp.local")
      (abucketmod (12, "_apple-midi._udp.local") (· ++ [7]) st9.query_map)).getD [] := by
  have h := C9_suppressed_cache_delivery st9 "_apple-midi._udp.local" 12 7 [some pC]
    (by decide) (by decide) (by decide)
    (fun o ho => by
      have : o = some pC := by
        rcases List.mem_singleton.mp ho
        rfl
      exact ⟨pC, this, by decide,
        ⟨((12, "_apple-midi._udp.local"), [⟨pC, none⟩]), by decide, by decide,
        ⟨pC, none⟩, by decide, by decide⟩⟩)
  exact ⟨h.1, h.2.2⟩

/-- C1 counterexample: `pkt1` carries one question (`x.local`, type A)
and one well-formed A answer.  Parsed in `st0` (registry without the
question's key) the engine hands nothing to `detected_service`, sends
nothing and keeps the state — the question loop's early return dropped
the answer — while parsed in `stK` (question known) the very same
answer is decoded and handed over, refuting "regardless of whether any
question's (type, label) has an entry in the announcement registry". -/
theorem C1_unknown_question_drops_answers :
    detectedEvents (parsePacket st0 ⟨pkt1, 0, pkt1.length⟩).2.1 = [] ∧
    sentEvents (parsePacket st0 ⟨pkt1, 0, pkt1.length⟩).2.1 = [] ∧
    (parsePacket st0 ⟨pkt1, 0, pkt1.length⟩).1 = st0 ∧
    detectedEvents (parsePacket stK ⟨pkt1, 0, pkt1.length⟩).2.1 = [fooRec] := by
  decide

/-- C1 (amended): the question phase alone never hands a record to
`detected_service`; when it aborts on a question whose `(type, label)`
has no announcement bucket (or faults), `parse_packet` returns with the
state untouched and no answer processed; only when every question was
known does `parse_packet` run the answer loop over the ancount answers
from the post-question reader position. -/
theorem C1_questions_gate_answers (st : State) (b : pbuf) (nq na : Nat) (b6 : pbuf)
    (hh : readHeader b = some (nq, na, b6)) :
    ∀ tr1 b7 e, runQuestions st nq b6 = (tr1, b7, e) →
      detectedEvents tr1 = [] ∧
      (e ≠ qexit.ok → parsePacket st b = (st, tr1, b7, e)) ∧
      (e = qexit.ok → parsePacket st b =
        ((runAnswers na st b7).1, tr1 ++ (runAnswers na st b7).2.1,
          (runAnswers na st b7).2.2.1, (runAnswers na st b7).2.2.2)) := by
  intro tr1 b7 e hq
  have hnd : detectedEvents tr1 = [] := by
    have := runQuestions_no_detected st nq b6
    rw [hq] at this
    exact this
  refine ⟨hnd, ?_, ?_⟩
  · intro hne
    unfold parsePacket
    rw [hh]
    dsimp only
    rw [hq]
    cases e
    · exact absurd rfl hne
    · rfl
    · rfl
  · intro hok
    subst hok
    unfold parsePacket
    rw [hh]
    dsimp only
    rw [hq]

/-- C1 witness: the theorem applied to `pkt1` in `st0`, whose single
question is unknown — the loop aborts at reader position 25 and the
packet's answer section is never parsed. -/
theorem C1_questions_gate_answers_witness :
    detectedEvents ([] : List ev) = [] ∧
    (qexit.abort ≠ qexit.ok →
      parsePacket st0 ⟨pkt1, 0, pkt1.length⟩ =
        (st0, [], ⟨pkt1, 25, pkt1.length⟩, qexit.abort)) ∧
    (qexit.abort = qexit.ok →
      parsePacket st0 ⟨pkt1, 0, pkt1.length⟩ =
        ((runAnswers 1 st0 ⟨pkt1, 25, pkt1.length⟩).1,
          [] ++ (runAnswers 1 st0 ⟨pkt1, 25, pkt1.length⟩).2.1,
          (runAnswers 1 st0 ⟨pkt1, 25, pkt1.length⟩).2.2.1,
          (runAnswers 1 st0 ⟨pkt1, 25, pkt1.length⟩).2.2.2)) :=
  C1_questions_gate_answers st0 ⟨pkt1, 0, pkt1.length⟩ 1 1 ⟨pkt1, 12, pkt1.length⟩
    (by decide) [] ⟨pkt1, 25, pkt1.length⟩ qexit.abort (by decide)
